/-
  Verification of drivers/ioexpander/skeleton.c (NuttX I/O expander skeleton
  driver) against its natural-language specification.

  The driver is embedded shallowly:
  * `ioe_pinset_t` values are `Nat` bitmasks (the claims never exercise the
    fixed machine width, since every pin index involved is validated against
    `CONFIG_IOEXPANDER_NPINS`, which is a parameter `NPINS` here);
  * C callback pointers are `Option Nat` — `none` is the C `NULL`, a
    `some f` is a non-null function pointer identified by the tag `f`;
  * each operation of the pin control surface additionally returns the list
    of observable events it performs (lock/unlock of the exclusive-access
    semaphore, bus transactions, interrupt-controller calls), so that the
    locking discipline and transaction counts of the spec can be stated;
  * the file's `#warning Missing logic` stubs (the actual bus accesses and
    the interrupt-controller enable/disable calls) are modelled from the
    spec at exactly the stub points; every definition doing so says so in
    its doc comment.  All control flow, validation, locking and the registry
    loops are translated from the C source.
-/
import Mathlib

namespace SkelIoex

/-! ## Error codes (from errno.h, as used by skeleton.c) -/

def OK : Int := 0

def ENXIO : Int := 6

def ENOSPC : Int := 28

def ENOSYS : Int := 38

/-- `IOEXPANDER_OPTION_INVERT` from ioexpander.h.  The concrete numeric value
is immaterial to every claim; only its distinctness from other option values
matters. -/
def IOEXPANDER_OPTION_INVERT : Nat := 1

/-! ## Observable events

An operation's behaviour is its return value, its effect on the driver
state, and the list of `Ev` events it performs, in order. -/

/-- Observable actions of a driver operation: semaphore lock/unlock, bus
transactions toward the expander hardware, and interrupt-controller calls. -/
inductive Ev where
  | lock
  | unlock
  | busRead
  | busWrite
  | disableIrq
  | enableIrq
deriving DecidableEq, Repr

/-! ## Callback registry (struct skel_callback_s, skel_attach) -/

/-- One registered pin-interrupt callback (`struct skel_callback_s`):
a pinset of interest and the saved callback function pointer
(`none` = C `NULL` = slot free). -/
structure skel_callback_s where
  pinset : Nat
  cbfunc : Option Nat
deriving DecidableEq, Repr

/-- The scan loop of `skel_attach` (skeleton.c lines 586-599).  `ret` starts
as `-ENOSPC`; for every entry whose `cbfunc` is `NULL` the loop stores
`pinset`/`callback` into the entry and sets `ret = OK`.  Note the C loop has
no `break`: it keeps scanning (and keeps filling free slots) after the first
free slot. -/
def skel_attach_loop (pinset : Nat) (callback : Option Nat) :
    List skel_callback_s → Int → List skel_callback_s × Int
  | [], ret => ([], ret)
  | e :: rest, ret =>
    if e.cbfunc = none then
      let r := skel_attach_loop pinset callback rest OK
      (⟨pinset, callback⟩ :: r.1, r.2)
    else
      let r := skel_attach_loop pinset callback rest ret
      (e :: r.1, r.2)

/-- `skel_attach` (skeleton.c lines 573-605): updated callback table and
return value.  The surrounding lock/unlock pair is `skel_attach_events`
below. -/
def skel_attach (cb : List skel_callback_s) (pinset : Nat)
    (callback : Option Nat) : List skel_callback_s × Int :=
  skel_attach_loop pinset callback cb (-ENOSPC)

/-- Events performed by `skel_attach`: it takes the exclusive lock around
the table scan and performs no bus transaction. -/
def skel_attach_events : List Ev := [.lock, .unlock]

/-- Iterated attach calls: the driver state after a sequence of
`skel_attach (pinset, callback)` operations.  `skel_attach` is the only
operation of the driver that writes the callback table. -/
def runAttaches : List skel_callback_s → List (Nat × Option Nat) →
    List skel_callback_s
  | cb, [] => cb
  | cb, (p, c) :: ops => runAttaches (skel_attach cb p c).1 ops

/-! ## Bottom-half dispatch (skel_irqworker) -/

/-- The callback-dispatch loop of `skel_irqworker` (skeleton.c lines
630-648), given the pinset read from the hardware.  For each table entry
with a non-null `cbfunc`, the loop computes `match = pinset & cb[i].pinset`
and, when non-zero, invokes `cb[i].cbfunc(&priv->dev, match)`.  The result
is the list of invocations `(cbfunc tag, match argument)` in registry
order. -/
def skel_irqworker_calls (pinset : Nat) :
    List skel_callback_s → List (Nat × Nat)
  | [] => []
  | e :: rest =>
    match e.cbfunc with
    | some f =>
      let m := pinset &&& e.pinset
      if m ≠ 0 then (f, m) :: skel_irqworker_calls pinset rest
      else skel_irqworker_calls pinset rest
    | none => skel_irqworker_calls pinset rest

/-- Modelled from the spec: in `skel_irqworker` (skeleton.c lines 618-652)
both the initial bus read of the interrupt-pending pinset (line 626) and
the final interrupt re-enable (line 651) are `#warning Missing logic`
stubs.  Per spec §4.4 the worker (1) issues a bus read; on failure no
callbacks are invoked for the cycle; (2) otherwise dispatches through the
source's loop `skel_irqworker_calls`; (3) always re-enables the interrupt
source.  The worker returns nothing (`void` in C), so a read failure is
never propagated; the result here is only the observable pair
(invocations, events). -/
def skel_irqworker_cycle (busRead : Except Unit Nat)
    (cb : List skel_callback_s) : List (Nat × Nat) × List Ev :=
  match busRead with
  | .ok pinset => (skel_irqworker_calls pinset cb, [.busRead, .enableIrq])
  | .error _ => ([], [.busRead, .enableIrq])

/-! ## Top-half (skel_interrupt) and the work-queue state -/

/-- The per-instance scheduling state seen by the top-half: whether a
bottom-half work item is queued (`work_available(&priv->work)` is its
negation), how many bottom-half dispatches are pending, and whether the
interrupt source is enabled. -/
structure IrqState where
  workQueued : Bool
  pendingCount : Nat
  irqEnabled : Bool
deriving DecidableEq, Repr

/-- `work_available(&priv->work)`: true when no work item is queued. -/
def work_available (s : IrqState) : Bool := !s.workQueued

/-- `skel_interrupt` (skeleton.c lines 665-701): when `work_available`
holds it disables the interrupt source (a `#warning Missing logic` stub,
modelled from the spec as setting `irqEnabled := false`) and queues
`skel_irqworker` on the worker thread; otherwise it does nothing and
returns. -/
def skel_interrupt (s : IrqState) : IrqState :=
  if work_available s then
    { workQueued := true, pendingCount := s.pendingCount + 1,
      irqEnabled := false }
  else s

/-- The scheduling effect of one bottom-half execution: the queued work item
is consumed and the interrupt source re-enabled (the re-enable is the
line-651 stub, modelled from the spec). -/
def skel_irqworker_sched (s : IrqState) : IrqState :=
  if s.workQueued then
    { workQueued := false, pendingCount := s.pendingCount - 1,
      irqEnabled := true }
  else s

/-- Interleavings of top-half firings and bottom-half completions. -/
inductive IrqEvent where
  | topHalf
  | bottomHalf
deriving DecidableEq, Repr

/-- Run a sequence of top-half firings and bottom-half completions. -/
def runIrq : IrqState → List IrqEvent → IrqState
  | s, [] => s
  | s, .topHalf :: tr => runIrq (skel_interrupt s) tr
  | s, .bottomHalf :: tr => runIrq (skel_irqworker_sched s) tr

/-- Initial state: no work queued, nothing pending, interrupts enabled. -/
def initIrqState : IrqState := ⟨false, 0, true⟩

/-! ## Exclusive access lock (skel_lock) -/

/-- Outcome of one `sem_wait(&priv->exclsem)` call: success, failure with
`errno == EINTR`, or failure with any other `errno`. -/
inductive SemWaitOutcome where
  | ok
  | eintr
  | otherFail
deriving DecidableEq, Repr

/-- Result of `skel_lock`: the lock was acquired after `retries` failed
waits, the `DEBUGASSERT(errno == EINTR)` fired, or every modelled wait
outcome was consumed without the semaphore being granted (the caller is
still blocked). -/
inductive LockResult where
  | acquired (retries : Nat)
  | assertFailed
  | blocked
deriving DecidableEq, Repr

/-- `skel_lock` (skeleton.c lines 169-177): `while (sem_wait(...) < 0)`
retries the wait, asserting `errno == EINTR` on each failed iteration.
The environment's successive `sem_wait` outcomes are the input list. -/
def skel_lock_run : List SemWaitOutcome → LockResult
  | [] => .blocked
  | .ok :: _ => .acquired 0
  | .eintr :: rest =>
    match skel_lock_run rest with
    | .acquired k => .acquired (k + 1)
    | r => r
  | .otherFail :: _ => .assertFailed

/-! ## Single-pin control surface operations

Each single-pin operation of skeleton.c takes the lock, performs its
(stubbed) register access, unlocks and returns.  None of them performs any
runtime range check on the pin index (only a compiled-out `DEBUGASSERT`).
The register access between lock and unlock is a `#warning Missing logic`
stub in each of them; it is modelled from the spec as a single bus
transaction whose (successful) result is `OK`. -/

/-- `skel_direction` (skeleton.c lines 197-219).  Modelled from the spec:
the line-215 register write stub is one bus transaction returning `OK`.
The `pin`/`direction` arguments are unchecked by the source. -/
def skel_direction (_NPINS pin direction : Nat) : List Ev × Int :=
  ([.lock, .busWrite, .unlock], OK)

/-- `skel_writepin` (skeleton.c lines 284-303).  Modelled from the spec:
the line-299 write stub is one bus transaction returning `OK`. -/
def skel_writepin (_NPINS pin : Nat) (value : Bool) : List Ev × Int :=
  ([.lock, .busWrite, .unlock], OK)

/-- `skel_readpin` (skeleton.c lines 323-342).  Modelled from the spec:
the line-338 read stub is one bus transaction returning `OK`. -/
def skel_readpin (_NPINS pin : Nat) : List Ev × Int :=
  ([.lock, .busRead, .unlock], OK)

/-- `skel_readbuf` (skeleton.c lines 361-376).  Modelled from the spec:
the line-372 read stub is one bus transaction returning `OK`. -/
def skel_readbuf (_NPINS pin : Nat) : List Ev × Int :=
  ([.lock, .busRead, .unlock], OK)

/-- `skel_option` (skeleton.c lines 240-265): `ret` is initialised to
`-ENOSYS`; only when `opt == IOEXPANDER_OPTION_INVERT` does the function
enter the lock-protected region (whose body, the line-259 stub, is
modelled from the spec as one bus transaction; the source never reassigns
`ret`, so even that branch returns `-ENOSYS`). -/
def skel_option (pin opt : Nat) : List Ev × Int :=
  if opt = IOEXPANDER_OPTION_INVERT then
    ([.lock, .busWrite, .unlock], -ENOSYS)
  else ([], -ENOSYS)

/-! ## Multi-pin control surface operations -/

/-- The read-modify loop of `skel_multiwritepin` (skeleton.c lines
452-469), run on the pinset read from the hardware: for each
`(pin, value)` pair in order, fail with `none` (the `- ENXIO` early
return) when `pin >= CONFIG_IOEXPANDER_NPINS`, otherwise set or clear bit
`pin` of the accumulated pinset (`pinset |= (1 << pin)` /
`pinset &= ~(1 << pin)`; `Nat.ldiff a b` is `a & ~b`). -/
def skel_multiwritepin_loop (NPINS : Nat) :
    List (Nat × Bool) → Nat → Option Nat
  | [], pinset => some pinset
  | (pin, v) :: rest, pinset =>
    if NPINS ≤ pin then none
    else
      skel_multiwritepin_loop NPINS rest
        (if v then pinset ||| (1 <<< pin) else Nat.ldiff pinset (1 <<< pin))

/-- `skel_multiwritepin` (skeleton.c lines 433-476): lock; read the current
pinset from the hardware (the line-448 stub, modelled from the spec as one
bus read returning `regval`); run the per-pin loop, which on an
out-of-range pin unlocks and returns `- ENXIO` (skipping the write back);
otherwise write the merged pinset back (the line-472 stub, modelled from
the spec as one bus write returning `OK`); unlock.  Result: the event
list, the return value, and the pinset written back (when any). -/
def skel_multiwritepin (NPINS regval : Nat) (pvs : List (Nat × Bool)) :
    List Ev × Int × Option Nat :=
  match skel_multiwritepin_loop NPINS pvs regval with
  | none => ([.lock, .busRead, .unlock], (- ENXIO, none))
  | some pinset =>
    ([.lock, .busRead, .busWrite, .unlock], (OK, some pinset))

/-- The copy loop of `skel_getmultibits` (skeleton.c lines 400-409): for
`i = 0, 1, ...` it first checks `pins[i] >= CONFIG_IOEXPANDER_NPINS`,
returning `- ENXIO` at once (with the caller's `values` buffer already
holding the bits written on earlier iterations), and otherwise stores into
`values[i]` whether bit `pins[i]` of the pinset read from the hardware is
set.  (Source line 408 is written `values[i] = ((pinset & (1 << pin) != 0);`
with an unbalanced parenthesis; the evident intended expression
`(pinset & (1 << pin)) != 0` is used, and no claim depends on the stored
value.)  The buffer is threaded as a `List Bool` updated in place with
`List.set`. -/
def skel_getmultibits_loop (NPINS pinset : Nat) :
    List Nat → List Bool → Nat → List Bool × Int
  | [], values, _ => (values, OK)
  | pin :: rest, values, i =>
    if NPINS ≤ pin then (values, - ENXIO)
    else
      skel_getmultibits_loop NPINS pinset rest
        (values.set i (decide ((pinset &&& (1 <<< pin)) ≠ 0))) (i + 1)

/-- `skel_getmultibits` (skeleton.c lines 387-413): read the pinset from
the hardware (the line-396 stub, modelled from the spec as one bus read
returning `regval`), then run the copy loop over the caller's buffer. -/
def skel_getmultibits (NPINS regval : Nat) (pins : List Nat)
    (values : List Bool) : List Bool × Int :=
  skel_getmultibits_loop NPINS regval pins values 0

/-- `skel_multireadpin` (skeleton.c lines 497-514): lock, delegate to
`skel_getmultibits` (whose hardware read is one bus transaction), unlock,
return its result. -/
def skel_multireadpin (NPINS regval : Nat) (pins : List Nat)
    (values : List Bool) : List Ev × List Bool × Int :=
  ([.lock, .busRead, .unlock], skel_getmultibits NPINS regval pins values)

/-- `skel_multireadbuf` (skeleton.c lines 535-552): identical structure to
`skel_multireadpin`, reading the buffered register instead. -/
def skel_multireadbuf (NPINS regval : Nat) (pins : List Nat)
    (values : List Bool) : List Ev × List Bool × Int :=
  ([.lock, .busRead, .unlock], skel_getmultibits NPINS regval pins values)

/-! ## Spec-side definitions (for refinement statements) -/

/-- Spec §4.5: the batched write applies the requested per-pin bit changes
to the pinset read from the device, as a left fold. -/
def applyPinChanges (regval : Nat) (pvs : List (Nat × Bool)) : Nat :=
  pvs.foldl
    (fun pinset pv =>
      if pv.2 then pinset ||| (1 <<< pv.1)
      else Nat.ldiff pinset (1 <<< pv.1))
    regval

/-- Spec §4.4: the bottom-half invokes exactly the occupied entries whose
interest pinset meets the event pinset, in registry order, each with the
intersection as argument. -/
def specDispatch (E : Nat) (cb : List skel_callback_s) : List (Nat × Nat) :=
  (cb.filter fun e => e.cbfunc.isSome && decide (E &&& e.pinset ≠ 0)).map
    fun e => (e.cbfunc.getD 0, E &&& e.pinset)

/-- A trace takes the lock as often as it releases it ("release on every
exit path"). -/
def lockBalanced (t : List Ev) : Prop :=
  t.count Ev.lock = t.count Ev.unlock

/-! ## Helper lemmas -/

/-- The scheduling invariant: the pending-dispatch count is 1 when a work
item is queued and 0 otherwise. -/
def goodIrq (s : IrqState) : Prop :=
  s.pendingCount = if s.workQueued then 1 else 0

theorem runIrq_goodIrq (tr : List IrqEvent) (s : IrqState) (h : goodIrq s) :
    goodIrq (runIrq s tr) := by
  induction tr generalizing s with
  | nil => exact h
  | cons ev tr ih =>
    cases ev with
    | topHalf =>
      refine ih _ ?_
      unfold goodIrq at h ⊢
      unfold skel_interrupt work_available
      cases hq : s.workQueued <;> simp [hq] at h ⊢ <;> simp [h]
    | bottomHalf =>
      refine ih _ ?_
      unfold goodIrq at h ⊢
      unfold skel_irqworker_sched
      cases hq : s.workQueued <;> simp [hq] at h ⊢ <;> simp [h]

/-! ## Claims -/

/-- C1: the claim says one attach call fills exactly one free slot (the
first found), so from an all-free registry of capacity N attach succeeds
N times.  The source loop (skeleton.c lines 587-599) lacks a `break`: a
single call fills EVERY free slot.  Concretely, with capacity 2 and both
slots free, one attach of callback 7 occupies both slots, and the very
next attach already fails with `-ENOSPC` — attach succeeded once, not
twice. -/
theorem C1_attach_fills_every_free_slot :
    skel_attach [⟨0, none⟩, ⟨0, none⟩] 1 (some 7) =
      ([⟨1, some 7⟩, ⟨1, some 7⟩], OK) ∧
    (skel_attach [⟨1, some 7⟩, ⟨1, some 7⟩] 2 (some 9)).2 = -ENOSPC := by
  decide

/-- C4: the bottom-half dispatch loop invokes the callback of an occupied
entry iff the event pinset meets its interest pinset, always passing the
intersection (never the raw event pinset), synchronously in registry
order: the source loop equals the spec-side filter-map `specDispatch`. -/
theorem C4_dispatch_iff_match (E : Nat) (cb : List skel_callback_s) :
    skel_irqworker_calls E cb = specDispatch E cb := by
  induction cb with
  | nil => rfl
  | cons e rest ih =>
    cases hcb : e.cbfunc with
    | none =>
      simp [skel_irqworker_calls, specDispatch, List.filter_cons, hcb] at ih ⊢
      exact ih
    | some f =>
      by_cases hm : E &&& e.pinset = 0 <;>
        simp [skel_irqworker_calls, specDispatch, List.filter_cons, hcb,
          hm] at ih ⊢ <;> exact ih

/-- C5: when the bottom-half's initial bus read of the interrupt-pending
pinset fails, no callback is invoked in that cycle, the interrupt source
is still re-enabled exactly once, and (the worker returning `void`) the
failure is not propagated. -/
theorem C5_busfail_no_callbacks (e : Unit) (cb : List skel_callback_s) :
    (skel_irqworker_cycle (.error e) cb).1 = [] ∧
    (skel_irqworker_cycle (.error e) cb).2.count Ev.enableIrq = 1 :=
  ⟨rfl, rfl⟩

/-- C8: for every option other than `IOEXPANDER_OPTION_INVERT`,
`skel_option` returns `-ENOSYS` having performed no event at all (no lock,
no bus transaction, no state change); only the invert option enters the
locked region. -/
theorem C8_option_enosys (pin opt : Nat)
    (h : opt ≠ IOEXPANDER_OPTION_INVERT) :
    (skel_option pin opt).1 = [] ∧ (skel_option pin opt).2 = -ENOSYS ∧
    Ev.lock ∈ (skel_option pin IOEXPANDER_OPTION_INVERT).1 := by
  refine ⟨?_, ?_, ?_⟩ <;> simp [skel_option, h]

/-- Witness for C8 at `pin = 0`, `opt = 0`. -/
theorem C8_option_enosys_witness :
    (0 : Nat) ≠ IOEXPANDER_OPTION_INVERT ∧
    ((skel_option 0 0).1 = [] ∧ (skel_option 0 0).2 = -ENOSYS ∧
      Ev.lock ∈ (skel_option 0 IOEXPANDER_OPTION_INVERT).1) :=
  ⟨by decide, C8_option_enosys 0 0 (by decide)⟩

/-- C3: while a bottom-half is outstanding (`workQueued = true`), a second
top-half firing is a no-op (`skel_interrupt` leaves the state unchanged:
the `work_available` guard fails), and along every interleaving of
top-half firings and bottom-half completions from the initial state, at
most one bottom-half is pending. -/
theorem C3_no_double_schedule :
    (∀ s : IrqState, s.workQueued = true → skel_interrupt s = s) ∧
    ∀ tr : List IrqEvent, (runIrq initIrqState tr).pendingCount ≤ 1 := by
  constructor
  · intro s h
    simp [skel_interrupt, work_available, h]
  · intro tr
    have h := runIrq_goodIrq tr initIrqState (by simp [goodIrq, initIrqState])
    unfold goodIrq at h
    split at h <;> omega

/-- Witness for C3: a queued state absorbs a second firing; a storm trace
keeps the pending count at most 1. -/
theorem C3_no_double_schedule_witness :
    skel_interrupt ⟨true, 1, false⟩ = ⟨true, 1, false⟩ ∧
    (runIrq initIrqState [.topHalf, .topHalf, .bottomHalf]).pendingCount ≤ 1 :=
  ⟨C3_no_double_schedule.1 ⟨true, 1, false⟩ rfl,
   C3_no_double_schedule.2 [.topHalf, .topHalf, .bottomHalf]⟩

theorem skel_lock_run_eintr_ok (k : Nat) (rest : List SemWaitOutcome) :
    skel_lock_run (List.replicate k .eintr ++ .ok :: rest) = .acquired k := by
  induction k with
  | zero => rfl
  | succ k ih => simp [List.replicate, skel_lock_run, ih]

theorem skel_lock_run_other_asserts (k : Nat) (rest : List SemWaitOutcome) :
    skel_lock_run (List.replicate k .eintr ++ .otherFail :: rest) =
      .assertFailed := by
  induction k with
  | zero => rfl
  | succ k ih => simp [List.replicate, skel_lock_run, ih]

/-- C7: `skel_lock` retries the semaphore wait through any number of
spurious `EINTR` failures and acquires the lock at the first successful
wait, while any non-`EINTR` failure trips the `DEBUGASSERT`; and every
operation of the driver that takes the exclusive lock releases it on every
exit path (each operation's event trace has equally many lock and unlock
events, for all inputs, error returns included). -/
theorem C7_lock_discipline :
    (∀ k rest,
      skel_lock_run (List.replicate k .eintr ++ .ok :: rest) = .acquired k) ∧
    (∀ k rest,
      skel_lock_run (List.replicate k .eintr ++ .otherFail :: rest) =
        .assertFailed) ∧
    (∀ NPINS pin d, lockBalanced (skel_direction NPINS pin d).1) ∧
    (∀ NPINS pin v, lockBalanced (skel_writepin NPINS pin v).1) ∧
    (∀ NPINS pin, lockBalanced (skel_readpin NPINS pin).1) ∧
    (∀ NPINS pin, lockBalanced (skel_readbuf NPINS pin).1) ∧
    (∀ pin opt, lockBalanced (skel_option pin opt).1) ∧
    (∀ NPINS regval pvs,
      lockBalanced (skel_multiwritepin NPINS regval pvs).1) ∧
    (∀ NPINS regval pins values,
      lockBalanced (skel_multireadpin NPINS regval pins values).1) ∧
    (∀ NPINS regval pins values,
      lockBalanced (skel_multireadbuf NPINS regval pins values).1) ∧
    lockBalanced skel_attach_events := by
  refine ⟨skel_lock_run_eintr_ok, skel_lock_run_other_asserts,
    fun _ _ _ => by unfold lockBalanced skel_direction; rfl,
    fun _ _ _ => by unfold lockBalanced skel_writepin; rfl,
    fun _ _ => by unfold lockBalanced skel_readpin; rfl,
    fun _ _ => by unfold lockBalanced skel_readbuf; rfl,
    fun pin opt => ?_, fun NPINS regval pvs => ?_,
    fun _ _ _ _ => by unfold lockBalanced skel_multireadpin; rfl,
    fun _ _ _ _ => by unfold lockBalanced skel_multireadbuf; rfl,
    by unfold lockBalanced skel_attach_events; rfl⟩
  · unfold skel_option lockBalanced
    split <;> rfl
  · unfold skel_multiwritepin lockBalanced
    rcases skel_multiwritepin_loop NPINS pvs regval <;> rfl

theorem multiwritepin_loop_none (NPINS : Nat) (pvs : List (Nat × Bool))
    (s : Nat) (h : ∃ pv ∈ pvs, NPINS ≤ pv.1) :
    skel_multiwritepin_loop NPINS pvs s = none := by
  induction pvs generalizing s with
  | nil => obtain ⟨pv, hm, _⟩ := h; cases hm
  | cons pv rest ih =>
    obtain ⟨pin, v⟩ := pv
    by_cases hp : NPINS ≤ pin
    · simp [skel_multiwritepin_loop, hp]
    · obtain ⟨q, hq, hgq⟩ := h
      rcases List.mem_cons.mp hq with rfl | hq'
      · exact absurd hgq hp
      · simp only [skel_multiwritepin_loop, if_neg hp]
        exact ih _ ⟨q, hq', hgq⟩

theorem getmultibits_loop_enxio (NPINS pinset : Nat) (pins : List Nat)
    (values : List Bool) (i : Nat) (h : ∃ p ∈ pins, NPINS ≤ p) :
    (skel_getmultibits_loop NPINS pinset pins values i).2 = - ENXIO := by
  induction pins generalizing values i with
  | nil => obtain ⟨p, hm, _⟩ := h; cases hm
  | cons pin rest ih =>
    by_cases hp : NPINS ≤ pin
    · simp [skel_getmultibits_loop, hp]
    · obtain ⟨q, hq, hgq⟩ := h
      rcases List.mem_cons.mp hq with rfl | hq'
      · exact absurd hgq hp
      · simp only [skel_getmultibits_loop, if_neg hp]
        exact ih _ _ ⟨q, hq', hgq⟩

/-- C2 counterexample: with `CONFIG_IOEXPANDER_NPINS = 8` and the
out-of-range pin index 8, the multi-pin write acquires the exclusive lock
(the source locks before validating), and the single-pin direction-set
acquires the lock as well (it never validates the pin at runtime) — the
claim says the lock is never acquired for an out-of-range index. -/
theorem C2_out_of_range_acquires_lock :
    8 ≤ 8 ∧
    Ev.lock ∈ (skel_multiwritepin 8 0 [(8, true)]).1 ∧
    Ev.lock ∈ (skel_direction 8 8 0).1 := by
  decide

/-- C2 amended: only the multi-pin operations validate pin indices — given
a list containing an index `≥ NPINS` they return `- ENXIO`, the multi-pin
write then performs no write-back bus transaction, and the lock, which WAS
acquired before validation, is still released; the single-pin operations
perform no runtime range validation at all and acquire the lock for every
pin index. -/
theorem C2_amended_range_validation (NPINS regval : Nat)
    (pvs : List (Nat × Bool)) (pins : List Nat) (values : List Bool)
    (h1 : ∃ pv ∈ pvs, NPINS ≤ pv.1) (h2 : ∃ p ∈ pins, NPINS ≤ p) :
    (skel_multiwritepin NPINS regval pvs).2.1 = - ENXIO ∧
    Ev.busWrite ∉ (skel_multiwritepin NPINS regval pvs).1 ∧
    lockBalanced (skel_multiwritepin NPINS regval pvs).1 ∧
    (skel_multireadpin NPINS regval pins values).2.2 = - ENXIO ∧
    (skel_multireadbuf NPINS regval pins values).2.2 = - ENXIO ∧
    ∀ pin d, Ev.lock ∈ (skel_direction NPINS pin d).1 := by
  have hw := multiwritepin_loop_none NPINS pvs regval h1
  have hr := getmultibits_loop_enxio NPINS regval pins values 0 h2
  refine ⟨?_, ?_, ?_, hr, hr, fun pin d => by simp [skel_direction]⟩ <;>
    simp [skel_multiwritepin, hw, lockBalanced]

/-- Witness for C2 amended at `NPINS = 8`, batch `[(8, true)]`, pin list
`[8]`. -/
theorem C2_amended_range_validation_witness :
    (∃ pv ∈ [((8 : Nat), true)], 8 ≤ pv.1) ∧
    (∃ p ∈ [(8 : Nat)], 8 ≤ p) ∧
    ((skel_multiwritepin 8 0 [(8, true)]).2.1 = - ENXIO ∧
     Ev.busWrite ∉ (skel_multiwritepin 8 0 [(8, true)]).1 ∧
     lockBalanced (skel_multiwritepin 8 0 [(8, true)]).1 ∧
     (skel_multireadpin 8 0 [8] [true]).2.2 = - ENXIO ∧
     (skel_multireadbuf 8 0 [8] [true]).2.2 = - ENXIO ∧
     ∀ pin d, Ev.lock ∈ (skel_direction 8 pin d).1) :=
  ⟨⟨(8, true), by decide⟩, ⟨8, by decide⟩,
   C2_amended_range_validation 8 0 [(8, true)] [8] [true]
     ⟨(8, true), by decide⟩ ⟨8, by decide⟩⟩

theorem multiwritepin_loop_some (NPINS : Nat) (pvs : List (Nat × Bool))
    (s : Nat) (h : ∀ pv ∈ pvs, pv.1 < NPINS) :
    skel_multiwritepin_loop NPINS pvs s = some (applyPinChanges s pvs) := by
  induction pvs generalizing s with
  | nil => rfl
  | cons pv rest ih =>
    obtain ⟨pin, v⟩ := pv
    have hp : ¬NPINS ≤ pin :=
      Nat.not_le.mpr (h (pin, v) (List.mem_cons_self _ _))
    simp only [skel_multiwritepin_loop, if_neg hp, applyPinChanges,
      List.foldl_cons]
    exact ih _ fun q hq => h q (List.mem_cons_of_mem _ hq)

/-- C6: for a batch of in-range pins with `2 ≤ batch ≤ NPINS`, the
multi-pin write performs exactly one bus read and one bus write, and what
it writes back is the pinset read from the device with each requested
per-pin bit change applied (`applyPinChanges`) — never one transaction per
pin. -/
theorem C6_multiwrite_two_transactions (NPINS regval : Nat)
    (pvs : List (Nat × Bool)) (h1 : ∀ pv ∈ pvs, pv.1 < NPINS)
    (h2 : 2 ≤ pvs.length) (h3 : pvs.length ≤ NPINS) :
    (skel_multiwritepin NPINS regval pvs).1.count Ev.busRead = 1 ∧
    (skel_multiwritepin NPINS regval pvs).1.count Ev.busWrite = 1 ∧
    (skel_multiwritepin NPINS regval pvs).2.2 =
      some (applyPinChanges regval pvs) := by
  have hl := multiwritepin_loop_some NPINS pvs regval h1
  refine ⟨?_, ?_, ?_⟩ <;> simp [skel_multiwritepin, hl]

/-- Witness for C6 at `NPINS = 8`, batch `[(0, true), (1, false)]`,
`regval = 2` (write of pins 0 and 1 merges into `0b01`). -/
theorem C6_multiwrite_two_transactions_witness :
    (∀ pv ∈ [((0 : Nat), true), (1, false)], pv.1 < 8) ∧
    2 ≤ ([((0 : Nat), true), (1, false)]).length ∧
    ([((0 : Nat), true), (1, false)]).length ≤ 8 ∧
    ((skel_multiwritepin 8 2 [(0, true), (1, false)]).1.count Ev.busRead = 1 ∧
     (skel_multiwritepin 8 2 [(0, true), (1, false)]).1.count Ev.busWrite = 1 ∧
     (skel_multiwritepin 8 2 [(0, true), (1, false)]).2.2 =
       some (applyPinChanges 2 [(0, true), (1, false)])) :=
  ⟨by decide, by decide, by decide,
   C6_multiwrite_two_transactions 8 2 [(0, true), (1, false)]
     (by decide) (by decide) (by decide)⟩

theorem attach_loop_preserves_occupied (pinset : Nat)
    (callback : Option Nat) (cb : List skel_callback_s) (ret : Int)
    (i : Nat) (e : skel_callback_s) (hi : cb[i]? = some e)
    (he : e.cbfunc ≠ none) :
    (skel_attach_loop pinset callback cb ret).1[i]? = some e := by
  induction cb generalizing i ret with
  | nil => simp at hi
  | cons a rest ih =>
    cases i with
    | zero =>
      simp at hi
      subst hi
      have ha : ¬a.cbfunc = none := he
      simp [skel_attach_loop, if_neg ha]
    | succ j =>
      simp at hi
      by_cases ha : a.cbfunc = none <;>
        simp [skel_attach_loop, ha] <;> exact ih _ _ hi

theorem attach_loop_fills_free (pinset : Nat) (callback : Option Nat)
    (cb : List skel_callback_s) (ret : Int) (i : Nat)
    (e : skel_callback_s) (hi : cb[i]? = some e) (he : e.cbfunc = none) :
    (skel_attach_loop pinset callback cb ret).1[i]? =
      some ⟨pinset, callback⟩ := by
  induction cb generalizing i ret with
  | nil => simp at hi
  | cons a rest ih =>
    cases i with
    | zero =>
      simp at hi
      subst hi
      simp [skel_attach_loop, he]
    | succ j =>
      simp at hi
      by_cases ha : a.cbfunc = none <;>
        simp [skel_attach_loop, ha] <;> exact ih _ _ hi

theorem attach_loop_ret (pinset : Nat) (callback : Option Nat)
    (cb : List skel_callback_s) (ret : Int) :
    (skel_attach_loop pinset callback cb ret).2 =
      if cb.any fun e => e.cbfunc.isNone then OK else ret := by
  induction cb generalizing ret with
  | nil => rfl
  | cons a rest ih =>
    by_cases ha : a.cbfunc = none <;>
      simp [skel_attach_loop, ha, ih, Option.isNone_iff_eq_none]

theorem runAttaches_preserves_occupied (ops : List (Nat × Option Nat))
    (cb : List skel_callback_s) (i : Nat) (e : skel_callback_s)
    (hi : cb[i]? = some e) (he : e.cbfunc ≠ none) :
    (runAttaches cb ops)[i]? = some e := by
  induction ops generalizing cb with
  | nil => exact hi
  | cons op ops ih =>
    obtain ⟨p, c⟩ := op
    exact ih _ (attach_loop_preserves_occupied p c cb _ i e hi he)

/-- C9: no operation ever frees an occupied callback slot — `skel_attach`
is the only operation writing the table, and across any sequence of attach
calls an occupied entry stays exactly as it is (occupancy is monotone);
in particular an attach with a `NULL` callback still returns `OK` when a
free slot exists, writes the null handler only into free slots (which
therefore stay free), and leaves every occupied entry unchanged. -/
theorem C9_occupancy_monotone (cb : List skel_callback_s) :
    (∀ (ops : List (Nat × Option Nat)) (i : Nat) (e : skel_callback_s),
      cb[i]? = some e → e.cbfunc ≠ none →
      (runAttaches cb ops)[i]? = some e) ∧
    ∀ p : Nat, (∃ e ∈ cb, e.cbfunc = none) →
      (skel_attach cb p none).2 = OK ∧
      (∀ (i : Nat) (e : skel_callback_s), cb[i]? = some e →
        e.cbfunc = none →
        (skel_attach cb p none).1[i]? = some ⟨p, none⟩) ∧
      (∀ (i : Nat) (e : skel_callback_s), cb[i]? = some e →
        e.cbfunc ≠ none →
        (skel_attach cb p none).1[i]? = some e) := by
  refine ⟨fun ops i e hi he =>
    runAttaches_preserves_occupied ops cb i e hi he, fun p hfree => ?_⟩
  obtain ⟨e0, he0m, he0⟩ := hfree
  refine ⟨?_, fun i e hi he => attach_loop_fills_free p none cb _ i e hi he,
    fun i e hi he => attach_loop_preserves_occupied p none cb _ i e hi he⟩
  rw [skel_attach, attach_loop_ret]
  have : cb.any (fun e => e.cbfunc.isNone) = true :=
    List.any_eq_true.mpr ⟨e0, he0m, by simp [he0]⟩
  simp [this]

/-- Witness for C9: with slot 0 occupied by callback 7 and slot 1 free, a
later attach of callback 9 and a null-callback attach both leave slot 0
untouched; the null attach reports `OK` and overwrites only the free
slot. -/
theorem C9_occupancy_monotone_witness :
    (runAttaches [⟨1, some 7⟩, ⟨0, none⟩] [(2, some 9)])[0]? =
      some ⟨1, some 7⟩ ∧
    (skel_attach [⟨1, some 7⟩, ⟨0, none⟩] 5 none).2 = OK ∧
    (skel_attach [⟨1, some 7⟩, ⟨0, none⟩] 5 none).1[1]? = some ⟨5, none⟩ ∧
    (skel_attach [⟨1, some 7⟩, ⟨0, none⟩] 5 none).1[0]? = some ⟨1, some 7⟩ :=
  ⟨(C9_occupancy_monotone _).1 [(2, some 9)] 0 ⟨1, some 7⟩ (by decide)
      (by decide),
   ((C9_occupancy_monotone _).2 5 ⟨⟨0, none⟩, by decide, rfl⟩).1,
   ((C9_occupancy_monotone _).2 5 ⟨⟨0, none⟩, by decide, rfl⟩).2.1 1
     ⟨0, none⟩ (by decide) rfl,
   ((C9_occupancy_monotone _).2 5 ⟨⟨0, none⟩, by decide, rfl⟩).2.2 0
     ⟨1, some 7⟩ (by decide) (by decide)⟩

theorem getmultibits_loop_spec (NPINS pinset bad : Nat)
    (good rest : List Nat) (hg : ∀ p ∈ good, p < NPINS) (hb : NPINS ≤ bad)
    (values : List Bool) (i : Nat)
    (hlen : i + good.length < values.length) :
    (skel_getmultibits_loop NPINS pinset (good ++ bad :: rest)
        values i).2 = - ENXIO ∧
    (∀ (j p : Nat), good[j]? = some p →
      (skel_getmultibits_loop NPINS pinset (good ++ bad :: rest)
          values i).1[i + j]? =
        some (decide ((pinset &&& (1 <<< p)) ≠ 0))) ∧
    (∀ j : Nat, j < i →
      (skel_getmultibits_loop NPINS pinset (good ++ bad :: rest)
          values i).1[j]? = values[j]?) ∧
    (∀ j : Nat, i + good.length ≤ j →
      (skel_getmultibits_loop NPINS pinset (good ++ bad :: rest)
          values i).1[j]? = values[j]?) := by
  induction good generalizing values i with
  | nil =>
    refine ⟨?_, ?_, ?_, ?_⟩
    · simp [skel_getmultibits_loop, if_pos hb]
    · intro j p hj
      simp at hj
    · intro j _
      simp [skel_getmultibits_loop, if_pos hb]
    · intro j _
      simp [skel_getmultibits_loop, if_pos hb]
  | cons p ps ih =>
    have hp : ¬NPINS ≤ p := Nat.not_le.mpr (hg p (List.mem_cons_self _ _))
    simp only [List.cons_append, skel_getmultibits_loop, if_neg hp,
      List.append_eq]
    have hlen' : (i + 1) + ps.length <
        (values.set i (decide ((pinset &&& (1 <<< p)) ≠ 0))).length := by
      rw [List.length_set]
      simp only [List.length_cons] at hlen
      omega
    obtain ⟨ih1, ih2, ih3, ih4⟩ :=
      ih (fun q hq => hg q (List.mem_cons_of_mem _ hq)) _ (i + 1) hlen'
    refine ⟨ih1, fun j q hj => ?_, fun j hji => ?_, fun j hj => ?_⟩
    · cases j with
      | zero =>
        simp only [List.getElem?_cons_zero, Option.some.injEq] at hj
        subst hj
        have h0 := ih3 i (Nat.lt_succ_self i)
        show (skel_getmultibits_loop NPINS pinset (ps ++ bad :: rest)
            (values.set i (decide ((pinset &&& (1 <<< p)) ≠ 0)))
            (i + 1)).1[i]? = _
        rw [h0]
        exact List.getElem?_set_eq_of_lt _ (by
          simp only [List.length_cons] at hlen
          omega)
      | succ j' =>
        have hidx : i + (j' + 1) = (i + 1) + j' := by omega
        rw [hidx]
        exact ih2 j' q (by simpa using hj)
    · rw [ih3 j (Nat.lt_succ_of_lt hji),
        List.getElem?_set_ne (by omega)]
    · simp only [List.length_cons] at hj
      rw [ih4 j (by omega), List.getElem?_set_ne (by omega)]

/-- C10: when a multi-pin read is given a pin list whose first
out-of-range index sits after the in-range indices `good`, it returns
`- ENXIO`, but the caller's output buffer already holds the freshly read
bits at positions `0 .. good.length - 1` (while positions from
`good.length` on keep their old contents): the failed multi-pin read is
not side-effect-free on the output buffer.  Both wrappers
(`skel_multireadpin`, `skel_multireadbuf`) surface the same `- ENXIO`. -/
theorem C10_failed_multiread_overwrites_prior (NPINS regval bad : Nat)
    (good rest : List Nat) (values : List Bool)
    (hg : ∀ p ∈ good, p < NPINS) (hb : NPINS ≤ bad)
    (hlen : values.length = good.length + 1 + rest.length) :
    (skel_getmultibits NPINS regval (good ++ bad :: rest) values).2 =
      - ENXIO ∧
    (∀ (j p : Nat), good[j]? = some p →
      (skel_getmultibits NPINS regval (good ++ bad :: rest) values).1[j]? =
        some (decide ((regval &&& (1 <<< p)) ≠ 0))) ∧
    (∀ j : Nat, good.length ≤ j →
      (skel_getmultibits NPINS regval (good ++ bad :: rest) values).1[j]? =
        values[j]?) ∧
    (skel_multireadpin NPINS regval (good ++ bad :: rest) values).2.2 =
      - ENXIO ∧
    (skel_multireadbuf NPINS regval (good ++ bad :: rest) values).2.2 =
      - ENXIO := by
  obtain ⟨h1, h2, h3, h4⟩ :=
    getmultibits_loop_spec NPINS regval bad good rest hg hb values 0
      (by omega)
  exact ⟨h1, fun j p hj => by simpa using h2 j p hj,
    fun j hj => h4 j (by omega), h1, h1⟩

/-- Witness for C10: pin count 8, pin list `[0, 8]`, register value 1,
buffer `[false, true]` — the call fails with `- ENXIO` yet slot 0 of the
buffer was overwritten with pin 0's bit (`true`), slot 1 kept. -/
theorem C10_failed_multiread_overwrites_prior_witness :
    (∀ p ∈ [(0 : Nat)], p < 8) ∧ 8 ≤ 8 ∧
    ([false, true] : List Bool).length =
      [(0 : Nat)].length + 1 + ([] : List Nat).length ∧
    ((skel_getmultibits 8 1 [0, 8] [false, true]).2 = - ENXIO ∧
     (skel_getmultibits 8 1 [0, 8] [false, true]).1[0]? = some true ∧
     (skel_getmultibits 8 1 [0, 8] [false, true]).1[1]? =
       ([false, true] : List Bool)[1]?) :=
  have h := C10_failed_multiread_overwrites_prior 8 1 8 [0] [] [false, true]
    (by decide) (by decide) (by decide)
  ⟨by decide, by decide, by decide,
   h.1, h.2.1 0 0 rfl, h.2.2.1 1 (by decide)⟩

end SkelIoex
